import Mathlib

/-!
Shallow embedding of the `luxfi/codec` Go package.

`packing.go` is embedded as a `Packer` structure holding the byte slice
(`Bytes : List Nat`, each entry a byte value), the slice's capacity
(`cap`, tracked explicitly because `expand` branches on Go's `cap(p.Bytes)`),
the cursor (`Offset`) and the sticky error (`Err`).  Go mutation becomes
explicit state passing: each `PackX` returns the new `Packer`, each
`UnpackX` returns the value paired with the new `Packer`.

`codec.go`'s `manager` is embedded generically over the value type `V`:
a `Codec V` is a record of the three interface methods, and the `manager`
holds a partial map from version numbers to codecs.

The unnamed constants/`Errs` file is embedded at the end.
-/

namespace LuxCodec

/-- The distinguishable error values of the package (`errors.New` values in
`packing.go` and `codec.go`).  `custom` stands for any error value produced
by a third-party `Codec` implementation. -/
inductive GoError where
  | insufficientLength
  | negativeLength
  | badLength
  | overflow
  | cantPackVersion
  | cantUnpackVersion
  | unknownVersion
  | duplicateType
  | custom (code : Nat)
deriving DecidableEq

def ErrInsufficientLength : GoError := .insufficientLength
def ErrNegativeLength : GoError := .negativeLength
def ErrBadLength : GoError := .badLength
def ErrOverflow : GoError := .overflow
def ErrCantPackVersion : GoError := .cantPackVersion
def ErrCantUnpackVersion : GoError := .cantUnpackVersion
def ErrUnknownVersion : GoError := .unknownVersion
def ErrDuplicateType : GoError := .duplicateType

/-- `MaxStringLen = math.MaxUint16` in `packing.go`. -/
def MaxStringLen : Nat := 65535

/-- Go's `math.MaxInt32`, the bound tested by `PackBytes`. -/
def MaxInt32 : Nat := 2 ^ 31 - 1

/-- `DefaultMaxSize = 1024 * 1024` in `codec.go`. -/
def DefaultMaxSize : Nat := 1024 * 1024

/-- Big-endian byte encoding of width `w`: what
`binary.BigEndian.PutUintXX` stores (`byte(v >> k)` truncates mod 256,
matching `v / 256 ^ i % 256`). -/
def beBytes : Nat → Nat → List Nat
  | 0, _ => []
  | w + 1, v => v / 256 ^ w % 256 :: beBytes w v

/-- Big-endian decoding of the first `w` bytes of a list: what
`binary.BigEndian.UintXX` computes. -/
def beVal : Nat → List Nat → Nat
  | 0, _ => 0
  | _ + 1, [] => 0
  | w + 1, b :: rest => b * 256 ^ w + beVal w rest

/-- Go's `copy(l[off:], vs)` after bounds have been ensured: overwrite the
entries of `l` at positions `off, …, off + vs.length - 1` with `vs`. -/
def writeAt (l : List Nat) (off : Nat) (vs : List Nat) : List Nat :=
  l.take off ++ vs ++ l.drop (off + vs.length)

/-- The `Packer` struct of `packing.go`.  `cap` tracks `cap(p.Bytes)`;
the Go backing array beyond `len` is zero-filled (fresh `make`), so length
extension in `expand` exposes zero bytes. -/
structure Packer where
  Bytes : List Nat
  cap : Nat
  Offset : Nat
  Err : Option GoError
deriving DecidableEq

/-- `NewPacker`: clamps a negative max size to 0 and caps it at
`DefaultMaxSize`; the buffer starts empty with that capacity. -/
def NewPacker (maxSize : Int) : Packer :=
  let m1 : Int := if maxSize < 0 then 0 else maxSize
  let m2 : Int := if m1 > (DefaultMaxSize : Int) then (DefaultMaxSize : Int) else m1
  { Bytes := [], cap := m2.toNat, Offset := 0, Err := none }

/-- `PackerFromBytes`: wraps the given bytes, offset 0, no error. -/
def PackerFromBytes (b : List Nat) : Packer :=
  { Bytes := b, cap := b.length, Offset := 0, Err := none }

/-- `Remaining`: bytes left to read (Go `int` subtraction). -/
def Packer.Remaining (p : Packer) : Int :=
  (p.Bytes.length : Int) - (p.Offset : Int)

/-- `Errored`: whether the sticky error is set. -/
def Packer.Errored (p : Packer) : Bool :=
  p.Err.isSome

/-- `expand`: ensure room for `n` more bytes past the offset.  No-op on a
sticky error; doubles (or grows to fit) the capacity, then extends the
length, the new bytes being zero. -/
def Packer.expand (p : Packer) (n : Nat) : Packer :=
  if p.Err.isSome then p
  else
    let needed := p.Offset + n
    let p1 := if needed > p.cap then { p with cap := max (p.cap * 2) needed } else p
    if needed > p1.Bytes.length then
      { p1 with Bytes := p1.Bytes ++ List.replicate (needed - p1.Bytes.length) 0 }
    else p1

/-- `PackByte`: `p.Bytes[p.Offset] = val; p.Offset++` after `expand(1)`. -/
def Packer.PackByte (p : Packer) (val : Nat) : Packer :=
  let q := p.expand 1
  if q.Err.isSome then q
  else { q with Bytes := q.Bytes.set q.Offset val, Offset := q.Offset + 1 }

/-- `UnpackByte`. -/
def Packer.UnpackByte (p : Packer) : Nat × Packer :=
  if p.Err.isSome then (0, p)
  else if p.Offset ≥ p.Bytes.length then (0, { p with Err := some ErrInsufficientLength })
  else (p.Bytes.getD p.Offset 0, { p with Offset := p.Offset + 1 })

/-- `PackShort`: 2 bytes big-endian. -/
def Packer.PackShort (p : Packer) (val : Nat) : Packer :=
  let q := p.expand 2
  if q.Err.isSome then q
  else { q with Bytes := writeAt q.Bytes q.Offset (beBytes 2 val), Offset := q.Offset + 2 }

/-- `UnpackShort`. -/
def Packer.UnpackShort (p : Packer) : Nat × Packer :=
  if p.Err.isSome then (0, p)
  else if p.Offset + 2 > p.Bytes.length then (0, { p with Err := some ErrInsufficientLength })
  else (beVal 2 (p.Bytes.drop p.Offset), { p with Offset := p.Offset + 2 })

/-- `PackInt`: 4 bytes big-endian. -/
def Packer.PackInt (p : Packer) (val : Nat) : Packer :=
  let q := p.expand 4
  if q.Err.isSome then q
  else { q with Bytes := writeAt q.Bytes q.Offset (beBytes 4 val), Offset := q.Offset + 4 }

/-- `UnpackInt`. -/
def Packer.UnpackInt (p : Packer) : Nat × Packer :=
  if p.Err.isSome then (0, p)
  else if p.Offset + 4 > p.Bytes.length then (0, { p with Err := some ErrInsufficientLength })
  else (beVal 4 (p.Bytes.drop p.Offset), { p with Offset := p.Offset + 4 })

/-- `PackLong`: 8 bytes big-endian. -/
def Packer.PackLong (p : Packer) (val : Nat) : Packer :=
  let q := p.expand 8
  if q.Err.isSome then q
  else { q with Bytes := writeAt q.Bytes q.Offset (beBytes 8 val), Offset := q.Offset + 8 }

/-- `UnpackLong`. -/
def Packer.UnpackLong (p : Packer) : Nat × Packer :=
  if p.Err.isSome then (0, p)
  else if p.Offset + 8 > p.Bytes.length then (0, { p with Err := some ErrInsufficientLength })
  else (beVal 8 (p.Bytes.drop p.Offset), { p with Offset := p.Offset + 8 })

/-- `PackBool`: 1 byte, 1 for true, 0 for false. -/
def Packer.PackBool (p : Packer) (val : Bool) : Packer :=
  if val then p.PackByte 1 else p.PackByte 0

/-- `UnpackBool`: `p.UnpackByte() != 0`. -/
def Packer.UnpackBool (p : Packer) : Bool × Packer :=
  let r := p.UnpackByte
  (r.1 != 0, r.2)

/-- `PackFixedBytes`: raw bytes, no length prefix. -/
def Packer.PackFixedBytes (p : Packer) (val : List Nat) : Packer :=
  let q := p.expand val.length
  if q.Err.isSome then q
  else { q with Bytes := writeAt q.Bytes q.Offset val, Offset := q.Offset + val.length }

/-- `UnpackFixedBytes`: `n` is a Go `int` (may be negative). -/
def Packer.UnpackFixedBytes (p : Packer) (n : Int) : List Nat × Packer :=
  if p.Err.isSome then ([], p)
  else if n < 0 then ([], { p with Err := some ErrNegativeLength })
  else if p.Offset + n.toNat > p.Bytes.length then
    ([], { p with Err := some ErrInsufficientLength })
  else ((p.Bytes.drop p.Offset).take n.toNat, { p with Offset := p.Offset + n.toNat })

/-- `PackBytes`: overflow guard, then 4-byte length prefix plus raw bytes.
The guard precedes the sticky-error check (there is none here), exactly as
in the source. -/
def Packer.PackBytes (p : Packer) (val : List Nat) : Packer :=
  if val.length > MaxInt32 then { p with Err := some ErrOverflow }
  else (p.PackInt val.length).PackFixedBytes val

/-- `UnpackBytes`: 4-byte length prefix, then that many raw bytes. -/
def Packer.UnpackBytes (p : Packer) : List Nat × Packer :=
  let r := p.UnpackInt
  r.2.UnpackFixedBytes (r.1 : Int)

/-- `PackStr`: a Go string is its byte sequence; bad-length guard (which,
as in the source, precedes any sticky-error check), then a 2-byte length
prefix (`uint16(strLen)`, the truncation being performed by `beBytes 2`)
plus the raw bytes. -/
def Packer.PackStr (p : Packer) (val : List Nat) : Packer :=
  let strLen := val.length
  if strLen > MaxStringLen then { p with Err := some ErrBadLength }
  else (p.PackShort strLen).PackFixedBytes val

/-- `UnpackStr`: 2-byte length prefix, then that many raw bytes. -/
def Packer.UnpackStr (p : Packer) : List Nat × Packer :=
  let r := p.UnpackShort
  r.2.UnpackFixedBytes (r.1 : Int)

/-! ## `codec.go`: the `Codec` interface and the version `manager`

The embedding is generic over the value type `V` standing for Go's
`interface{}` source/destination values.  A `Codec` is the record of the
three interface methods; mutation of the `*Packer` argument becomes an
explicit returned `Packer`.  `UnmarshalFrom` mutates the destination in
place in Go; only its error is observable through `manager.Unmarshal`'s
return values, so it is embedded as the error-valued function. -/

structure Codec (V : Type) where
  MarshalInto : V → Packer → Option GoError × Packer
  UnmarshalFrom : Packer → Option GoError
  Size : V → Int × Option GoError

/-- The `manager` struct: the codec table `map[uint16]Codec` is a partial
map from version numbers. -/
structure manager (V : Type) where
  maxSize : Int
  codecs : Nat → Option (Codec V)

/-- `RegisterCodec`: fails with `ErrDuplicateType` on an already-bound
version, otherwise binds it. -/
def manager.RegisterCodec {V : Type} (m : manager V) (version : Nat) (codec : Codec V) :
    Option GoError × manager V :=
  if (m.codecs version).isSome then (some ErrDuplicateType, m)
  else (none, { m with codecs := fun v => if v = version then some codec else m.codecs v })

/-- `manager.Marshal`.  The returned `Option (List Nat)` distinguishes
Go's `nil` slice (`none`) from a real slice (`some`). -/
def manager.Marshal {V : Type} (m : manager V) (version : Nat) (source : V) :
    Option (List Nat) × Option GoError :=
  match m.codecs version with
  | none => (none, some ErrUnknownVersion)
  | some codec =>
    let p := (NewPacker m.maxSize).PackShort version
    if p.Err.isSome then (none, some ErrCantPackVersion)
    else
      match codec.MarshalInto source p with
      | (some e, _) => (none, some e)
      | (none, q) => (some (q.Bytes.take q.Offset), q.Err)

/-- `manager.Unmarshal`: returns the parsed version and the error. -/
def manager.Unmarshal {V : Type} (m : manager V) (bytes : List Nat) :
    Nat × Option GoError :=
  if bytes.length < 2 then (0, some ErrCantUnpackVersion)
  else
    let r := (PackerFromBytes bytes).UnpackShort
    if r.2.Err.isSome then (0, some ErrCantUnpackVersion)
    else
      match m.codecs r.1 with
      | none => (r.1, some ErrUnknownVersion)
      | some codec => (r.1, codec.UnmarshalFrom r.2)

/-- `manager.Size`: 2 bytes of version prefix plus the codec's size. -/
def manager.Size {V : Type} (m : manager V) (version : Nat) (value : V) :
    Int × Option GoError :=
  match m.codecs version with
  | none => (0, some ErrUnknownVersion)
  | some codec =>
    match codec.Size value with
    | (_, some e) => (0, some e)
    | (size, none) => (2 + size, none)

/-! ## The unnamed constants/`Errs` file -/

def ByteLen : Nat := 1
def ShortLen : Nat := 2
def VersionSize : Nat := ShortLen
def IntLen : Nat := 4
def LongLen : Nat := 8
def BoolLen : Nat := 1

/-- `StringLen`: packed length of a string. -/
def StringLen (str : List Nat) : Nat :=
  ShortLen + str.length

/-- `Errs` collects errors, keeping only the first. -/
structure Errs where
  Err : Option GoError
deriving DecidableEq

/-- `Errs.Errored`. -/
def Errs.Errored (errs : Errs) : Bool :=
  errs.Err.isSome

/-- The loop body of `Errs.Add`: the first non-nil entry of the variadic
argument list, or nil if there is none. -/
def firstNonNil : List (Option GoError) → Option GoError
  | [] => none
  | some e :: _ => some e
  | none :: rest => firstNonNil rest

/-- `Errs.Add`: records the first non-nil error; once `Err` is set it is
never changed. -/
def Errs.Add (errs : Errs) (errors : List (Option GoError)) : Errs :=
  if errs.Err.isSome then errs
  else { Err := firstNonNil errors }

/-! ## Concrete fixtures (used by witnesses and counterexamples) -/

/-- A 65536-byte string, longer than `MaxStringLen`. -/
def longStr : List Nat := List.replicate 65536 0

/-- A well-behaved codec for `Unit` packing a single byte. -/
def byteCodec : Codec Unit :=
  { MarshalInto := fun _ p => (none, p.PackByte 7)
    UnmarshalFrom := fun _ => none
    Size := fun _ => (1, none) }

/-- A codec whose `MarshalInto` drives the Packer into a sticky error (via
`PackStr`'s bad-length guard) but returns nil without checking `p.Err`,
as the `Codec` interface permits. -/
def uncheckedStrCodec : Codec Unit :=
  { MarshalInto := fun _ p => (none, p.PackStr longStr)
    UnmarshalFrom := fun _ => none
    Size := fun _ => (0, none) }

/-- A codec for `Unit` reporting size 5. -/
def sizeCodec : Codec Unit :=
  { MarshalInto := fun _ p => (none, p)
    UnmarshalFrom := fun _ => none
    Size := fun _ => (5, none) }

/-- A manager with no codecs registered. -/
def emptyManager : manager Unit :=
  { maxSize := 0, codecs := fun _ => none }

/-- A manager with `byteCodec` at version 1. -/
def testManager : manager Unit :=
  { maxSize := 10, codecs := fun v => if v = 1 then some byteCodec else none }

/-- A manager with `uncheckedStrCodec` at version 0. -/
def testManager3 : manager Unit :=
  { maxSize := 10, codecs := fun v => if v = 0 then some uncheckedStrCodec else none }

/-- A manager with `sizeCodec` at version 3. -/
def testManager9 : manager Unit :=
  { maxSize := 10, codecs := fun v => if v = 3 then some sizeCodec else none }

/-! ## Helper lemmas -/

theorem beBytes_length (w v : Nat) : (beBytes w v).length = w := by
  induction w generalizing v with
  | zero => rfl
  | succ w ih => simp [beBytes, ih]

theorem beVal_beBytes_append (w v : Nat) (rest : List Nat) :
    beVal w (beBytes w v ++ rest) = v % 256 ^ w := by
  induction w generalizing v with
  | zero => simp [beBytes, beVal, Nat.mod_one]
  | succ w ih =>
    show v / 256 ^ w % 256 * 256 ^ w + beVal w (beBytes w v ++ rest) = v % 256 ^ (w + 1)
    rw [ih, ← Nat.mod_mul_right_div_self, ← pow_succ]
    have hmod : v % 256 ^ w = v % 256 ^ (w + 1) % 256 ^ w :=
      (Nat.mod_mod_of_dvd v (pow_dvd_pow 256 (Nat.le_succ w))).symm
    rw [hmod, Nat.mul_comm (v % 256 ^ (w + 1) / 256 ^ w) (256 ^ w), Nat.div_add_mod]

theorem beVal_beBytes (w v : Nat) : beVal w (beBytes w v) = v % 256 ^ w := by
  have h := beVal_beBytes_append w v []
  simpa using h

theorem Packer.expand_eq (p : Packer) (n : Nat) (h : p.Err = none) :
    (p.expand n).Bytes = p.Bytes ++ List.replicate (p.Offset + n - p.Bytes.length) 0 ∧
    (p.expand n).Offset = p.Offset ∧ (p.expand n).Err = none := by
  unfold Packer.expand
  rw [h]
  simp only [Option.isSome_none, Bool.false_eq_true, if_false]
  split_ifs with h1 h2 h2
  · exact ⟨rfl, rfl, rfl⟩
  · have h2' : ¬ p.Offset + n > p.Bytes.length := h2
    have h0 : p.Offset + n - p.Bytes.length = 0 := by omega
    exact ⟨by simp [h0], rfl, rfl⟩
  · exact ⟨rfl, rfl, h⟩
  · have h0 : p.Offset + n - p.Bytes.length = 0 := by omega
    exact ⟨by simp [h0], rfl, h⟩

theorem Packer.expand_of_err (p : Packer) (n : Nat) (e : GoError) (h : p.Err = some e) :
    p.expand n = p := by
  simp [Packer.expand, h]

theorem writeAt_expand (p : Packer) (vs : List Nat) (w : Nat) (hw : vs.length = w)
    (h : p.Err = none) (hm : p.Offset = p.Bytes.length) :
    writeAt (p.expand w).Bytes (p.expand w).Offset vs = p.Bytes ++ vs := by
  obtain ⟨hb, ho, _⟩ := p.expand_eq w h
  rw [writeAt, hb, ho, hm]
  have hrep : p.Bytes.length + w - p.Bytes.length = w := by omega
  rw [hrep]
  have htake : (p.Bytes ++ List.replicate w 0).take p.Bytes.length = p.Bytes := by
    simp [List.take_append]
  have hdrop : (p.Bytes ++ List.replicate w 0).drop (p.Bytes.length + vs.length) = [] := by
    apply List.drop_eq_nil_of_le
    simp [hw]
  rw [htake, hdrop, List.append_nil]

theorem set_append_len (l : List Nat) (v : Nat) (t : List Nat) :
    (l ++ t).set l.length v = l ++ t.set 0 v := by
  induction l with
  | nil => simp
  | cons a r ih => simp [ih]

theorem PackByte_append (p : Packer) (v : Nat) (h : p.Err = none)
    (hm : p.Offset = p.Bytes.length) :
    (p.PackByte v).Bytes = p.Bytes ++ [v] ∧
    (p.PackByte v).Offset = p.Offset + 1 ∧ (p.PackByte v).Err = none := by
  obtain ⟨hb, ho, he⟩ := p.expand_eq 1 h
  simp only [Packer.PackByte, he, Option.isSome_none, Bool.false_eq_true, if_false]
  refine ⟨?_, by rw [ho], trivial⟩
  rw [hb, ho, hm]
  have hrep : p.Bytes.length + 1 - p.Bytes.length = 1 := by omega
  rw [hrep, List.replicate_one, set_append_len]
  rfl

theorem PackShort_append (p : Packer) (v : Nat) (h : p.Err = none)
    (hm : p.Offset = p.Bytes.length) :
    (p.PackShort v).Bytes = p.Bytes ++ beBytes 2 v ∧
    (p.PackShort v).Offset = p.Offset + 2 ∧ (p.PackShort v).Err = none := by
  obtain ⟨_, ho, he⟩ := p.expand_eq 2 h
  have hw := writeAt_expand p (beBytes 2 v) 2 (beBytes_length 2 v) h hm
  simp only [Packer.PackShort, he, Option.isSome_none, Bool.false_eq_true, if_false]
  exact ⟨hw, by rw [ho], trivial⟩

theorem PackInt_append (p : Packer) (v : Nat) (h : p.Err = none)
    (hm : p.Offset = p.Bytes.length) :
    (p.PackInt v).Bytes = p.Bytes ++ beBytes 4 v ∧
    (p.PackInt v).Offset = p.Offset + 4 ∧ (p.PackInt v).Err = none := by
  obtain ⟨_, ho, he⟩ := p.expand_eq 4 h
  have hw := writeAt_expand p (beBytes 4 v) 4 (beBytes_length 4 v) h hm
  simp only [Packer.PackInt, he, Option.isSome_none, Bool.false_eq_true, if_false]
  exact ⟨hw, by rw [ho], trivial⟩

theorem PackLong_append (p : Packer) (v : Nat) (h : p.Err = none)
    (hm : p.Offset = p.Bytes.length) :
    (p.PackLong v).Bytes = p.Bytes ++ beBytes 8 v ∧
    (p.PackLong v).Offset = p.Offset + 8 ∧ (p.PackLong v).Err = none := by
  obtain ⟨_, ho, he⟩ := p.expand_eq 8 h
  have hw := writeAt_expand p (beBytes 8 v) 8 (beBytes_length 8 v) h hm
  simp only [Packer.PackLong, he, Option.isSome_none, Bool.false_eq_true, if_false]
  exact ⟨hw, by rw [ho], trivial⟩

theorem PackFixedBytes_append (p : Packer) (val : List Nat) (h : p.Err = none)
    (hm : p.Offset = p.Bytes.length) :
    (p.PackFixedBytes val).Bytes = p.Bytes ++ val ∧
    (p.PackFixedBytes val).Offset = p.Offset + val.length ∧
    (p.PackFixedBytes val).Err = none := by
  obtain ⟨_, ho, he⟩ := p.expand_eq val.length h
  have hw := writeAt_expand p val val.length rfl h hm
  simp only [Packer.PackFixedBytes, he, Option.isSome_none, Bool.false_eq_true, if_false]
  exact ⟨hw, by rw [ho], trivial⟩

theorem PackBytes_append (p : Packer) (val : List Nat) (h : p.Err = none)
    (hm : p.Offset = p.Bytes.length) (hlen : val.length ≤ MaxInt32) :
    (p.PackBytes val).Bytes = p.Bytes ++ beBytes 4 val.length ++ val ∧
    (p.PackBytes val).Offset = p.Offset + (4 + val.length) ∧
    (p.PackBytes val).Err = none := by
  have hguard : ¬ val.length > MaxInt32 := by omega
  obtain ⟨hb1, ho1, he1⟩ := PackInt_append p val.length h hm
  have hm1 : (p.PackInt val.length).Offset = (p.PackInt val.length).Bytes.length := by
    rw [hb1, ho1, hm]
    simp [beBytes_length]
  obtain ⟨hb2, ho2, he2⟩ := PackFixedBytes_append (p.PackInt val.length) val he1 hm1
  simp only [Packer.PackBytes, hguard, if_false]
  refine ⟨?_, ?_, he2⟩
  · rw [hb2, hb1]
  · rw [ho2, ho1]
    omega

theorem PackStr_append (p : Packer) (val : List Nat) (h : p.Err = none)
    (hm : p.Offset = p.Bytes.length) (hlen : val.length ≤ MaxStringLen) :
    (p.PackStr val).Bytes = p.Bytes ++ beBytes 2 val.length ++ val ∧
    (p.PackStr val).Offset = p.Offset + (2 + val.length) ∧
    (p.PackStr val).Err = none := by
  have hguard : ¬ val.length > MaxStringLen := by omega
  obtain ⟨hb1, ho1, he1⟩ := PackShort_append p val.length h hm
  have hm1 : (p.PackShort val.length).Offset = (p.PackShort val.length).Bytes.length := by
    rw [hb1, ho1, hm]
    simp [beBytes_length]
  obtain ⟨hb2, ho2, he2⟩ := PackFixedBytes_append (p.PackShort val.length) val he1 hm1
  simp only [Packer.PackStr, hguard, if_false]
  refine ⟨?_, ?_, he2⟩
  · rw [hb2, hb1]
  · rw [ho2, ho1]
    omega

/-! ## Claim C1: sticky-error rule -/

/-- C1, counterexample: the claim says a Packer with a sticky error never
has that error replaced by a different one, but `PackStr`'s bad-length
guard runs before the sticky-error check: on a Packer whose error is
`ErrInsufficientLength`, `PackStr` with a 65536-byte string replaces the
error (with `ErrBadLength`). -/
theorem C1_counterexample :
    ((Packer.mk [] 0 0 (some ErrInsufficientLength)).PackStr
        (List.replicate 65536 0)).Err ≠ some ErrInsufficientLength := by
  have hgt : (List.replicate 65536 (0 : Nat)).length > MaxStringLen := by
    rw [List.length_replicate]
    norm_num [MaxStringLen]
  simp only [Packer.PackStr, if_pos hgt]
  simp [ErrBadLength, ErrInsufficientLength]

/-- C1, amended: on a Packer whose sticky error is already set, every pack
and unpack operation leaves `Bytes` and `Offset` unchanged and returns a
zero-valued result; the original error is preserved by every operation
except `PackBytes` with a slice longer than `MaxInt32` bytes and `PackStr`
with a string longer than `MaxStringLen` bytes, whose length guards
overwrite it with `ErrOverflow` / `ErrBadLength` respectively. -/
theorem C1_sticky_noop (p : Packer) (e : GoError) (h : p.Err = some e)
    (b v : Nat) (val : List Nat) (bo : Bool) (n : Int) :
    p.PackByte b = p ∧
    p.PackShort v = p ∧
    p.PackInt v = p ∧
    p.PackLong v = p ∧
    p.PackBool bo = p ∧
    p.PackFixedBytes val = p ∧
    ((p.PackBytes val).Bytes = p.Bytes ∧ (p.PackBytes val).Offset = p.Offset ∧
      (p.PackBytes val).Err =
        (if val.length > MaxInt32 then some ErrOverflow else some e)) ∧
    ((p.PackStr val).Bytes = p.Bytes ∧ (p.PackStr val).Offset = p.Offset ∧
      (p.PackStr val).Err =
        (if val.length > MaxStringLen then some ErrBadLength else some e)) ∧
    p.UnpackByte = (0, p) ∧
    p.UnpackShort = (0, p) ∧
    p.UnpackInt = (0, p) ∧
    p.UnpackLong = (0, p) ∧
    p.UnpackBool = (false, p) ∧
    p.UnpackBytes = ([], p) ∧
    p.UnpackStr = ([], p) ∧
    p.UnpackFixedBytes n = ([], p) := by
  have hside : p.Err.isSome = true := by rw [h]; rfl
  have hex : ∀ m, p.expand m = p := fun m => p.expand_of_err m e h
  have hPB : ∀ x, p.PackByte x = p := by intro x; simp [Packer.PackByte, hex, hside]
  have hPS : ∀ x, p.PackShort x = p := by intro x; simp [Packer.PackShort, hex, hside]
  have hPI : ∀ x, p.PackInt x = p := by intro x; simp [Packer.PackInt, hex, hside]
  have hPL : ∀ x, p.PackLong x = p := by intro x; simp [Packer.PackLong, hex, hside]
  have hPF : ∀ l, p.PackFixedBytes l = p := by
    intro l; simp [Packer.PackFixedBytes, hex, hside]
  have hUB : p.UnpackByte = (0, p) := by simp [Packer.UnpackByte, hside]
  have hUS : p.UnpackShort = (0, p) := by simp [Packer.UnpackShort, hside]
  have hUI : p.UnpackInt = (0, p) := by simp [Packer.UnpackInt, hside]
  have hUL : p.UnpackLong = (0, p) := by simp [Packer.UnpackLong, hside]
  have hUF : ∀ k, p.UnpackFixedBytes k = ([], p) := by
    intro k; simp [Packer.UnpackFixedBytes, hside]
  have hPBytes : (p.PackBytes val).Bytes = p.Bytes ∧
      (p.PackBytes val).Offset = p.Offset ∧
      (p.PackBytes val).Err =
        (if val.length > MaxInt32 then some ErrOverflow else some e) := by
    unfold Packer.PackBytes
    split_ifs with hg
    · exact ⟨rfl, rfl, rfl⟩
    · rw [hPI, hPF]
      exact ⟨rfl, rfl, h⟩
  have hPStr : (p.PackStr val).Bytes = p.Bytes ∧
      (p.PackStr val).Offset = p.Offset ∧
      (p.PackStr val).Err =
        (if val.length > MaxStringLen then some ErrBadLength else some e) := by
    unfold Packer.PackStr
    dsimp only
    split_ifs with hg
    · exact ⟨rfl, rfl, rfl⟩
    · rw [hPS, hPF]
      exact ⟨rfl, rfl, h⟩
  refine ⟨hPB b, hPS v, hPI v, hPL v, ?_, hPF val, hPBytes, hPStr,
    hUB, hUS, hUI, hUL, ?_, ?_, ?_, hUF n⟩
  · unfold Packer.PackBool
    cases bo <;> simp [hPB]
  · rw [Packer.UnpackBool, hUB]
    rfl
  · rw [Packer.UnpackBytes, hUI]
    exact hUF 0
  · rw [Packer.UnpackStr, hUS]
    exact hUF 0

/-- C1 witness: the amended sticky-error theorem applied at a concrete
errored Packer. -/
theorem C1_sticky_noop_witness :
    (Packer.mk [5] 1 0 (some ErrOverflow)).Err = some ErrOverflow ∧
    (Packer.mk [5] 1 0 (some ErrOverflow)).PackByte 1 =
      Packer.mk [5] 1 0 (some ErrOverflow) :=
  ⟨rfl, (C1_sticky_noop (Packer.mk [5] 1 0 (some ErrOverflow)) ErrOverflow rfl
      1 2 [3] true 1).1⟩

/-! ## Unpack evaluation helpers -/

theorem UnpackByte_eval (x : Nat) (rest : List Nat) :
    (PackerFromBytes (x :: rest)).UnpackByte =
      (x, { PackerFromBytes (x :: rest) with Offset := 1 }) := by
  unfold Packer.UnpackByte PackerFromBytes
  simp

theorem UnpackShort_eval (bytes : List Nat) (h2 : 2 ≤ bytes.length) :
    (PackerFromBytes bytes).UnpackShort =
      (beVal 2 bytes, { PackerFromBytes bytes with Offset := 2 }) := by
  have hg : ¬ ((0 : Nat) + 2 > bytes.length) := by omega
  unfold Packer.UnpackShort PackerFromBytes
  simp [hg]

theorem UnpackInt_eval (bytes : List Nat) (h4 : 4 ≤ bytes.length) :
    (PackerFromBytes bytes).UnpackInt =
      (beVal 4 bytes, { PackerFromBytes bytes with Offset := 4 }) := by
  have hg : ¬ ((0 : Nat) + 4 > bytes.length) := by omega
  unfold Packer.UnpackInt PackerFromBytes
  simp [hg]

theorem UnpackLong_eval (bytes : List Nat) (h8 : 8 ≤ bytes.length) :
    (PackerFromBytes bytes).UnpackLong =
      (beVal 8 bytes, { PackerFromBytes bytes with Offset := 8 }) := by
  have hg : ¬ ((0 : Nat) + 8 > bytes.length) := by omega
  unfold Packer.UnpackLong PackerFromBytes
  simp [hg]

theorem UnpackFixedBytes_eval (p : Packer) (n : Nat) (h : p.Err = none)
    (hlen : p.Offset + n ≤ p.Bytes.length) :
    p.UnpackFixedBytes (n : Int) =
      ((p.Bytes.drop p.Offset).take n, { p with Offset := p.Offset + n }) := by
  have h1 : ¬ ((n : Int) < 0) := by omega
  have h2 : ¬ (p.Offset + ((n : Int)).toNat > p.Bytes.length) := by
    rw [Int.toNat_natCast]
    omega
  unfold Packer.UnpackFixedBytes
  simp [h, h1, h2, Int.toNat_natCast]
  omega

/-! ## Claim C7: fixed-width unpacks on short input -/

/-- C7: on an error-free Packer with fewer remaining bytes than the fixed
width (1, 2, 4, 8), `UnpackByte`/`UnpackShort`/`UnpackInt`/`UnpackLong`
return the numeric zero value, set the sticky error to
`ErrInsufficientLength`, and leave `Bytes` and `Offset` unchanged. -/
theorem C7_unpack_insufficient (p : Packer) (h : p.Err = none) :
    (p.Remaining < 1 →
      p.UnpackByte = (0, { p with Err := some ErrInsufficientLength })) ∧
    (p.Remaining < 2 →
      p.UnpackShort = (0, { p with Err := some ErrInsufficientLength })) ∧
    (p.Remaining < 4 →
      p.UnpackInt = (0, { p with Err := some ErrInsufficientLength })) ∧
    (p.Remaining < 8 →
      p.UnpackLong = (0, { p with Err := some ErrInsufficientLength })) := by
  refine ⟨fun hr => ?_, fun hr => ?_, fun hr => ?_, fun hr => ?_⟩ <;>
    unfold Packer.Remaining at hr
  · have hg : p.Offset ≥ p.Bytes.length := by omega
    simp [Packer.UnpackByte, h, hg]
  · have hg : p.Offset + 2 > p.Bytes.length := by omega
    simp [Packer.UnpackShort, h, hg]
  · have hg : p.Offset + 4 > p.Bytes.length := by omega
    simp [Packer.UnpackInt, h, hg]
  · have hg : p.Offset + 8 > p.Bytes.length := by omega
    simp [Packer.UnpackLong, h, hg]

/-- C7 witness: the theorem applied to an empty Packer. -/
theorem C7_unpack_insufficient_witness :
    (PackerFromBytes []).Err = none ∧ (PackerFromBytes []).Remaining < 2 ∧
    (PackerFromBytes []).UnpackShort =
      (0, { PackerFromBytes [] with Err := some ErrInsufficientLength }) :=
  ⟨rfl, by decide, (C7_unpack_insufficient (PackerFromBytes []) rfl).2.1 (by decide)⟩

/-! ## Claim C8: PackBytes overflow threshold -/

/-- C8, counterexample: a slice of length `2 ^ 31` is within the claimed
`2 ^ 32 - 1` bound, yet `PackBytes` rejects it with `ErrOverflow`: the
code's guard is `len > math.MaxInt32 = 2 ^ 31 - 1`, not `2 ^ 32 - 1`. -/
theorem C8_counterexample :
    (2 : Nat) ^ 31 ≤ 2 ^ 32 - 1 ∧
    ((PackerFromBytes []).PackBytes (List.replicate (2 ^ 31) 0)).Err =
      some ErrOverflow := by
  refine ⟨by norm_num, ?_⟩
  have hgt : (List.replicate (2 ^ 31) (0 : Nat)).length > MaxInt32 := by
    rw [List.length_replicate]
    norm_num [MaxInt32]
  simp only [Packer.PackBytes, if_pos hgt]

/-- C8, amended: on an error-free write-mode Packer, `PackBytes` fails
with `ErrOverflow` exactly when the slice is longer than
`MaxInt32 = 2 ^ 31 - 1` bytes (leaving `Bytes` and `Offset` unchanged);
within that bound it appends a 4-byte big-endian length prefix followed
by the raw bytes. -/
theorem C8_packBytes (p : Packer) (val : List Nat) (h : p.Err = none)
    (hm : p.Offset = p.Bytes.length) :
    ((p.PackBytes val).Err = some ErrOverflow ↔ val.length > MaxInt32) ∧
    (val.length > MaxInt32 →
      (p.PackBytes val).Bytes = p.Bytes ∧ (p.PackBytes val).Offset = p.Offset) ∧
    (val.length ≤ MaxInt32 →
      (p.PackBytes val).Bytes = p.Bytes ++ beBytes 4 val.length ++ val ∧
      (p.PackBytes val).Offset = p.Offset + (4 + val.length) ∧
      (p.PackBytes val).Err = none) := by
  by_cases hg : val.length > MaxInt32
  · refine ⟨⟨fun _ => hg, fun _ => ?_⟩, fun _ => ⟨?_, ?_⟩, fun hle => by omega⟩ <;>
      simp only [Packer.PackBytes, if_pos hg]
  · have hle : val.length ≤ MaxInt32 := by omega
    obtain ⟨hb, ho, he⟩ := PackBytes_append p val h hm hle
    exact ⟨by simp [he, hg], fun hgt => absurd hgt hg, fun _ => ⟨hb, ho, he⟩⟩

/-- C8 witness: the amended theorem applied at a small slice. -/
theorem C8_packBytes_witness :
    (PackerFromBytes []).Err = none ∧ ([1, 2, 3] : List Nat).length ≤ MaxInt32 ∧
    ((PackerFromBytes []).PackBytes [1, 2, 3]).Bytes =
      ([] : List Nat) ++ beBytes 4 ([1, 2, 3] : List Nat).length ++ [1, 2, 3] :=
  ⟨rfl, by decide,
    ((C8_packBytes (PackerFromBytes []) [1, 2, 3] rfl rfl).2.2 (by decide)).1⟩

/-! ## Claim C4: buffer size versus the configured maximum -/

/-- C4, counterexample: with the configured maximum equal to the default
1 MiB, a single `PackBytes` call grows the buffer beyond the maximum:
`expand` enforces no upper bound. -/
theorem C4_counterexample :
    ((NewPacker ((DefaultMaxSize : Nat) : Int)).PackBytes
        (List.replicate DefaultMaxSize 0)).Bytes.length > DefaultMaxSize := by
  have hle : (List.replicate DefaultMaxSize (0 : Nat)).length ≤ MaxInt32 := by
    rw [List.length_replicate]
    norm_num [DefaultMaxSize, MaxInt32]
  obtain ⟨hb, _, _⟩ :=
    PackBytes_append (NewPacker ((DefaultMaxSize : Nat) : Int))
      (List.replicate DefaultMaxSize 0) rfl rfl hle
  rw [hb]
  have hnil : (NewPacker ((DefaultMaxSize : Nat) : Int)).Bytes = [] := rfl
  rw [hnil]
  simp [beBytes_length, List.length_replicate]

/-- C4, amended: `NewPacker` applies the configured maximum only to the
initial allocation: the buffer starts empty with capacity clamped into
`[0, DefaultMaxSize]`; pack operations thereafter grow the buffer without
bound (see the counterexample). -/
theorem C4_newPacker_clamp (maxSize : Int) :
    (NewPacker maxSize).Bytes = [] ∧ (NewPacker maxSize).cap ≤ DefaultMaxSize ∧
    (NewPacker maxSize).Offset = 0 ∧ (NewPacker maxSize).Err = none := by
  refine ⟨rfl, ?_, rfl, rfl⟩
  unfold NewPacker DefaultMaxSize
  dsimp only
  split_ifs with h1 h2 <;> simp <;> omega

/-! ## Claim C2: pack/unpack round-trips -/

/-- C2, counterexample: the documented length bound for byte slices is the
u32 range (`2 ^ 32 - 1`), but a slice of length `2 ^ 31` — within that
bound — does not round-trip: `PackBytes` rejects it with `ErrOverflow`,
the buffer stays empty, and unpacking the produced bytes returns a value
different from the original. -/
theorem C2_counterexample :
    (2 : Nat) ^ 31 ≤ 2 ^ 32 - 1 ∧
    ((NewPacker 0).PackBytes (List.replicate (2 ^ 31) 0)).Err = some ErrOverflow ∧
    (PackerFromBytes
        ((NewPacker 0).PackBytes (List.replicate (2 ^ 31) 0)).Bytes).UnpackBytes.1 ≠
      List.replicate (2 ^ 31) 0 := by
  have hgt : (List.replicate (2 ^ 31) (0 : Nat)).length > MaxInt32 := by
    rw [List.length_replicate]
    norm_num [MaxInt32]
  have hpk : (NewPacker 0).PackBytes (List.replicate (2 ^ 31) 0) =
      { NewPacker 0 with Err := some ErrOverflow } := by
    unfold Packer.PackBytes
    rw [if_pos hgt]
  refine ⟨by norm_num, by rw [hpk], ?_⟩
  rw [hpk]
  have hval : (PackerFromBytes
      ({ NewPacker 0 with Err := some ErrOverflow } : Packer).Bytes).UnpackBytes.1 =
      [] := rfl
  rw [hval]
  intro h
  have hlen := congrArg List.length h
  rw [List.length_replicate] at hlen
  norm_num at hlen

/-- C2, amended: packing a byte, uint16, uint32, uint64, bool, byte slice
of length at most `MaxInt32 = 2 ^ 31 - 1` (the `PackBytes` guard — not
the full u32 range of the length prefix, see the counterexample) or
string of length at most `MaxStringLen` into a fresh Packer and unpacking
the produced bytes with the matching operation returns the original value
with no error, consuming exactly the bytes the pack wrote (the unpacker
ends at the packer's final offset). -/
theorem C2_roundtrip (ms : Int) (b v16 v32 v64 : Nat) (bl : Bool) (bs s : List Nat)
    (hb : b < 2 ^ 8) (h16 : v16 < 2 ^ 16) (h32 : v32 < 2 ^ 32) (h64 : v64 < 2 ^ 64)
    (hbs : bs.length ≤ MaxInt32) (hs : s.length ≤ MaxStringLen) :
    ((PackerFromBytes ((NewPacker ms).PackByte b).Bytes).UnpackByte.1 = b ∧
      (PackerFromBytes ((NewPacker ms).PackByte b).Bytes).UnpackByte.2.Err = none ∧
      (PackerFromBytes ((NewPacker ms).PackByte b).Bytes).UnpackByte.2.Offset =
        ((NewPacker ms).PackByte b).Offset) ∧
    ((PackerFromBytes ((NewPacker ms).PackShort v16).Bytes).UnpackShort.1 = v16 ∧
      (PackerFromBytes ((NewPacker ms).PackShort v16).Bytes).UnpackShort.2.Err = none ∧
      (PackerFromBytes ((NewPacker ms).PackShort v16).Bytes).UnpackShort.2.Offset =
        ((NewPacker ms).PackShort v16).Offset) ∧
    ((PackerFromBytes ((NewPacker ms).PackInt v32).Bytes).UnpackInt.1 = v32 ∧
      (PackerFromBytes ((NewPacker ms).PackInt v32).Bytes).UnpackInt.2.Err = none ∧
      (PackerFromBytes ((NewPacker ms).PackInt v32).Bytes).UnpackInt.2.Offset =
        ((NewPacker ms).PackInt v32).Offset) ∧
    ((PackerFromBytes ((NewPacker ms).PackLong v64).Bytes).UnpackLong.1 = v64 ∧
      (PackerFromBytes ((NewPacker ms).PackLong v64).Bytes).UnpackLong.2.Err = none ∧
      (PackerFromBytes ((NewPacker ms).PackLong v64).Bytes).UnpackLong.2.Offset =
        ((NewPacker ms).PackLong v64).Offset) ∧
    ((PackerFromBytes ((NewPacker ms).PackBool bl).Bytes).UnpackBool.1 = bl ∧
      (PackerFromBytes ((NewPacker ms).PackBool bl).Bytes).UnpackBool.2.Err = none ∧
      (PackerFromBytes ((NewPacker ms).PackBool bl).Bytes).UnpackBool.2.Offset =
        ((NewPacker ms).PackBool bl).Offset) ∧
    ((PackerFromBytes ((NewPacker ms).PackBytes bs).Bytes).UnpackBytes.1 = bs ∧
      (PackerFromBytes ((NewPacker ms).PackBytes bs).Bytes).UnpackBytes.2.Err = none ∧
      (PackerFromBytes ((NewPacker ms).PackBytes bs).Bytes).UnpackBytes.2.Offset =
        ((NewPacker ms).PackBytes bs).Offset) ∧
    ((PackerFromBytes ((NewPacker ms).PackStr s).Bytes).UnpackStr.1 = s ∧
      (PackerFromBytes ((NewPacker ms).PackStr s).Bytes).UnpackStr.2.Err = none ∧
      (PackerFromBytes ((NewPacker ms).PackStr s).Bytes).UnpackStr.2.Offset =
        ((NewPacker ms).PackStr s).Offset) := by
  have h0 : (NewPacker ms).Err = none := rfl
  have hm0 : (NewPacker ms).Offset = (NewPacker ms).Bytes.length := rfl
  have hnil : (NewPacker ms).Bytes = [] := rfl
  have hOzero : (NewPacker ms).Offset = 0 := rfl
  have pow2 : (256 : Nat) ^ 2 = 2 ^ 16 := by norm_num
  have pow4 : (256 : Nat) ^ 4 = 2 ^ 32 := by norm_num
  have pow8 : (256 : Nat) ^ 8 = 2 ^ 64 := by norm_num
  refine ⟨?_, ?_, ?_, ?_, ?_, ?_, ?_⟩
  · -- byte
    obtain ⟨hb1, ho1, _⟩ := PackByte_append (NewPacker ms) b h0 hm0
    rw [hnil, List.nil_append] at hb1
    refine ⟨?_, ?_, ?_⟩ <;> rw [hb1, UnpackByte_eval b []]
    · rfl
    · rw [ho1, hOzero]
  · -- short
    obtain ⟨hb2, ho2, _⟩ := PackShort_append (NewPacker ms) v16 h0 hm0
    rw [hnil, List.nil_append] at hb2
    have hlen : 2 ≤ (beBytes 2 v16).length := by rw [beBytes_length]
    have hval : beVal 2 (beBytes 2 v16) = v16 := by
      rw [beVal_beBytes, pow2]
      exact Nat.mod_eq_of_lt h16
    refine ⟨?_, ?_, ?_⟩ <;> rw [hb2, UnpackShort_eval (beBytes 2 v16) hlen]
    · rw [hval]
    · rfl
    · rw [ho2, hOzero]
  · -- int
    obtain ⟨hb3, ho3, _⟩ := PackInt_append (NewPacker ms) v32 h0 hm0
    rw [hnil, List.nil_append] at hb3
    have hlen : 4 ≤ (beBytes 4 v32).length := by rw [beBytes_length]
    have hval : beVal 4 (beBytes 4 v32) = v32 := by
      rw [beVal_beBytes, pow4]
      exact Nat.mod_eq_of_lt h32
    refine ⟨?_, ?_, ?_⟩ <;> rw [hb3, UnpackInt_eval (beBytes 4 v32) hlen]
    · rw [hval]
    · rfl
    · rw [ho3, hOzero]
  · -- long
    obtain ⟨hb4, ho4, _⟩ := PackLong_append (NewPacker ms) v64 h0 hm0
    rw [hnil, List.nil_append] at hb4
    have hlen : 8 ≤ (beBytes 8 v64).length := by rw [beBytes_length]
    have hval : beVal 8 (beBytes 8 v64) = v64 := by
      rw [beVal_beBytes, pow8]
      exact Nat.mod_eq_of_lt h64
    refine ⟨?_, ?_, ?_⟩ <;> rw [hb4, UnpackLong_eval (beBytes 8 v64) hlen]
    · rw [hval]
    · rfl
    · rw [ho4, hOzero]
  · -- bool
    cases bl with
    | false =>
      obtain ⟨hbx, hox, _⟩ := PackByte_append (NewPacker ms) 0 h0 hm0
      rw [hnil, List.nil_append] at hbx
      have hPB : (NewPacker ms).PackBool false = (NewPacker ms).PackByte 0 := rfl
      rw [hPB]
      unfold Packer.UnpackBool
      refine ⟨?_, ?_, ?_⟩ <;> rw [hbx, UnpackByte_eval 0 []]
      · rfl
      · rfl
      · rw [hox, hOzero]
    | true =>
      obtain ⟨hbx, hox, _⟩ := PackByte_append (NewPacker ms) 1 h0 hm0
      rw [hnil, List.nil_append] at hbx
      have hPB : (NewPacker ms).PackBool true = (NewPacker ms).PackByte 1 := rfl
      rw [hPB]
      unfold Packer.UnpackBool
      refine ⟨?_, ?_, ?_⟩ <;> rw [hbx, UnpackByte_eval 1 []]
      · rfl
      · rfl
      · rw [hox, hOzero]
  · -- bytes
    obtain ⟨hbB, hoB, _⟩ := PackBytes_append (NewPacker ms) bs h0 hm0 hbs
    rw [hnil, List.nil_append] at hbB
    have hbs32 : bs.length < 2 ^ 32 := by
      have h := hbs
      norm_num [MaxInt32] at h
      norm_num
      omega
    have hlen : 4 ≤ (beBytes 4 bs.length ++ bs).length := by
      rw [List.length_append, beBytes_length]
      omega
    have hui := UnpackInt_eval (beBytes 4 bs.length ++ bs) hlen
    have hval : beVal 4 (beBytes 4 bs.length ++ bs) = bs.length := by
      rw [beVal_beBytes_append, pow4]
      exact Nat.mod_eq_of_lt hbs32
    have hfix := UnpackFixedBytes_eval
      ({ PackerFromBytes (beBytes 4 bs.length ++ bs) with Offset := 4 }) bs.length rfl
      (by show 4 + bs.length ≤ (beBytes 4 bs.length ++ bs).length
          rw [List.length_append, beBytes_length])
    have hdrop : (beBytes 4 bs.length ++ bs).drop 4 = bs := by
      have h := List.drop_left (beBytes 4 bs.length) bs
      rw [beBytes_length] at h
      exact h
    have htake :
        ((beBytes 4 bs.length ++ bs).drop 4).take bs.length = bs := by
      rw [hdrop, List.take_length]
    unfold Packer.UnpackBytes
    refine ⟨?_, ?_, ?_⟩ <;> rw [hbB] <;> dsimp only <;> rw [hui] <;> dsimp only <;>
      rw [hval, hfix]
    · exact htake
    · rfl
    · rw [hoB, hOzero]
      show 4 + bs.length = 0 + (4 + bs.length)
      omega
  · -- str
    obtain ⟨hbS, hoS, _⟩ := PackStr_append (NewPacker ms) s h0 hm0 hs
    rw [hnil, List.nil_append] at hbS
    have hs16 : s.length < 2 ^ 16 := by
      have h := hs
      norm_num [MaxStringLen] at h
      norm_num
      omega
    have hlen : 2 ≤ (beBytes 2 s.length ++ s).length := by
      rw [List.length_append, beBytes_length]
      omega
    have hus := UnpackShort_eval (beBytes 2 s.length ++ s) hlen
    have hval : beVal 2 (beBytes 2 s.length ++ s) = s.length := by
      rw [beVal_beBytes_append, pow2]
      exact Nat.mod_eq_of_lt hs16
    have hfix := UnpackFixedBytes_eval
      ({ PackerFromBytes (beBytes 2 s.length ++ s) with Offset := 2 }) s.length rfl
      (by show 2 + s.length ≤ (beBytes 2 s.length ++ s).length
          rw [List.length_append, beBytes_length])
    have hdropS : (beBytes 2 s.length ++ s).drop 2 = s := by
      have h := List.drop_left (beBytes 2 s.length) s
      rw [beBytes_length] at h
      exact h
    have htake : ((beBytes 2 s.length ++ s).drop 2).take s.length = s := by
      rw [hdropS, List.take_length]
    unfold Packer.UnpackStr
    refine ⟨?_, ?_, ?_⟩ <;> rw [hbS] <;> dsimp only <;> rw [hus] <;> dsimp only <;>
      rw [hval, hfix]
    · exact htake
    · rfl
    · rw [hoS, hOzero]
      show 2 + s.length = 0 + (2 + s.length)
      omega

/-- C2 witness: the round-trip theorem applied at concrete values. -/
theorem C2_roundtrip_witness :
    ((250 : Nat) < 2 ^ 8 ∧ (65535 : Nat) < 2 ^ 16 ∧ (3000000000 : Nat) < 2 ^ 32 ∧
      (2 : Nat) ^ 63 + 5 < 2 ^ 64 ∧ ([1, 2, 3] : List Nat).length ≤ MaxInt32 ∧
      ([7, 8] : List Nat).length ≤ MaxStringLen) ∧
    (PackerFromBytes ((NewPacker 16).PackShort 65535).Bytes).UnpackShort.1 = 65535 :=
  ⟨⟨by decide, by decide, by decide, by decide, by decide, by decide⟩,
    (C2_roundtrip 16 250 65535 3000000000 (2 ^ 63 + 5) true [1, 2, 3] [7, 8]
      (by decide) (by decide) (by decide) (by decide) (by decide) (by decide)).2.1.1⟩

/-! ## Claim C5: Unmarshal dispatch -/

/-- C5: `Unmarshal` fails with `ErrCantUnpackVersion` on fewer than 2
bytes; with at least 2 bytes the parsed big-endian version is returned
with `ErrUnknownVersion` when unregistered, and otherwise alongside the
registered codec's result on the remaining bytes (the Packer positioned
after the 2-byte prefix). -/
theorem C5_unmarshal {V : Type} (m : manager V) (bytes : List Nat) :
    (bytes.length < 2 → m.Unmarshal bytes = (0, some ErrCantUnpackVersion)) ∧
    (2 ≤ bytes.length →
      (m.codecs (beVal 2 bytes) = none →
        m.Unmarshal bytes = (beVal 2 bytes, some ErrUnknownVersion)) ∧
      (∀ c, m.codecs (beVal 2 bytes) = some c →
        m.Unmarshal bytes =
          (beVal 2 bytes,
            c.UnmarshalFrom
              { Bytes := bytes, cap := bytes.length, Offset := 2, Err := none }))) := by
  constructor
  · intro hlt
    unfold manager.Unmarshal
    rw [if_pos hlt]
  · intro h2
    have hge : ¬ bytes.length < 2 := by omega
    have hus := UnpackShort_eval bytes h2
    constructor
    · intro hc
      unfold manager.Unmarshal
      rw [if_neg hge]
      dsimp only
      rw [hus]
      simp [hc, PackerFromBytes]
    · intro c hc
      unfold manager.Unmarshal
      rw [if_neg hge]
      dsimp only
      rw [hus]
      simp [hc, PackerFromBytes]

/-- C5 witness: the theorem applied to a 2-byte input whose version is
unregistered. -/
theorem C5_unmarshal_witness :
    2 ≤ ([0, 7] : List Nat).length ∧
    emptyManager.Unmarshal [0, 7] = (7, some ErrUnknownVersion) :=
  ⟨by decide, ((C5_unmarshal emptyManager [0, 7]).2 (by decide)).1 rfl⟩

/-! ## Claim C9: Size dispatch -/

/-- C9: `Size` fails with `ErrUnknownVersion` (size 0) when the version
is unregistered; otherwise it returns 2 plus the codec's size on success
and surfaces the codec's error with size 0 on failure. -/
theorem C9_size {V : Type} (m : manager V) (version : Nat) (value : V) :
    (m.codecs version = none → m.Size version value = (0, some ErrUnknownVersion)) ∧
    (∀ c, m.codecs version = some c →
      (∀ sz e, c.Size value = (sz, some e) → m.Size version value = (0, some e)) ∧
      (∀ sz, c.Size value = (sz, none) → m.Size version value = (2 + sz, none))) := by
  constructor
  · intro hc
    unfold manager.Size
    rw [hc]
  · intro c hc
    constructor
    · intro sz e hs
      unfold manager.Size
      rw [hc]
      dsimp only
      rw [hs]
    · intro sz hs
      unfold manager.Size
      rw [hc]
      dsimp only
      rw [hs]

/-- C9 witness: the theorem applied to a manager holding `sizeCodec`
(size 5) at version 3. -/
theorem C9_size_witness :
    testManager9.codecs 3 = some sizeCodec ∧ sizeCodec.Size () = (5, none) ∧
    testManager9.Size 3 () = (7, none) :=
  ⟨rfl, rfl, ((C9_size testManager9 3 ()).2 sizeCodec rfl).2 5 rfl⟩

/-! ## Claim C6: Marshal output layout -/

/-- C6: `Marshal` fails with `ErrUnknownVersion` when the version is
unregistered; the 2-byte big-endian version tag is always writable (so
the `ErrCantPackVersion` branch never fires) and is exactly the buffer
handed to the codec; an error from `MarshalInto` is surfaced verbatim
with nil bytes; on success the produced bytes are the packer's first
`Offset` bytes and, whenever the codec preserved the 2-byte prefix and
ended at offset at least 2, they begin with the version tag followed by
the codec's output. -/
theorem C6_marshal {V : Type} (m : manager V) (version : Nat) (source : V) :
    (m.codecs version = none → m.Marshal version source = (none, some ErrUnknownVersion)) ∧
    (((NewPacker m.maxSize).PackShort version).Err = none ∧
      ((NewPacker m.maxSize).PackShort version).Bytes = beBytes 2 version ∧
      ((NewPacker m.maxSize).PackShort version).Offset = 2) ∧
    (∀ c, m.codecs version = some c →
      (∀ e q, c.MarshalInto source ((NewPacker m.maxSize).PackShort version) = (some e, q) →
        m.Marshal version source = (none, some e)) ∧
      (∀ q, c.MarshalInto source ((NewPacker m.maxSize).PackShort version) = (none, q) →
        m.Marshal version source = (some (q.Bytes.take q.Offset), q.Err) ∧
        (q.Bytes.take 2 = beBytes 2 version → 2 ≤ q.Offset →
          (m.Marshal version source).1 =
            some (beBytes 2 version ++ (q.Bytes.take q.Offset).drop 2)))) := by
  have hps := PackShort_append (NewPacker m.maxSize) version rfl rfl
  have hpb : ((NewPacker m.maxSize).PackShort version).Bytes = beBytes 2 version := by
    rw [hps.1]
    rfl
  have hpe : ((NewPacker m.maxSize).PackShort version).Err = none := hps.2.2
  have hpo : ((NewPacker m.maxSize).PackShort version).Offset = 2 := by
    rw [hps.2.1]
    rfl
  refine ⟨?_, ⟨hpe, hpb, hpo⟩, ?_⟩
  · intro hc
    unfold manager.Marshal
    rw [hc]
  · intro c hc
    have hcond : ¬ (((NewPacker m.maxSize).PackShort version).Err.isSome = true) := by
      rw [hpe]
      simp
    constructor
    · intro e q hmar
      unfold manager.Marshal
      rw [hc]
      dsimp only
      rw [if_neg hcond, hmar]
    · intro q hmar
      have hM : m.Marshal version source = (some (q.Bytes.take q.Offset), q.Err) := by
        unfold manager.Marshal
        rw [hc]
        dsimp only
        rw [if_neg hcond, hmar]
      refine ⟨hM, fun hpre h2q => ?_⟩
      rw [hM]
      have h1 : (q.Bytes.take q.Offset).take 2 = beBytes 2 version := by
        rw [List.take_take, Nat.min_eq_left h2q]
        exact hpre
      conv_lhs => rw [← List.take_append_drop 2 (q.Bytes.take q.Offset)]
      rw [h1]

set_option maxRecDepth 4000 in
/-- C6 witness: the theorem applied to `testManager` whose codec appends
one byte after the version tag. -/
theorem C6_marshal_witness :
    testManager.codecs 1 = some byteCodec ∧
    byteCodec.MarshalInto () ((NewPacker testManager.maxSize).PackShort 1) =
      (none, ((NewPacker testManager.maxSize).PackShort 1).PackByte 7) ∧
    testManager.Marshal 1 () = (some [0, 1, 7], none) :=
  ⟨rfl, rfl,
    (((C6_marshal testManager 1 ()).2.2 byteCodec rfl).2
        (((NewPacker testManager.maxSize).PackShort 1).PackByte 7) rfl).1⟩

/-! ## Claim C3: failing Marshal and partial bytes -/

/-- C3, counterexample: `manager.Marshal`'s final line returns
`p.Bytes[:p.Offset], p.Err` even when `p.Err` is non-nil, so a codec that
leaves the Packer's sticky error set while returning nil (here by packing
an over-long string unchecked) makes Marshal return a non-nil error
together with non-nil partial bytes (the version tag). -/
theorem C3_counterexample :
    (testManager3.Marshal 0 ()).2 = some ErrBadLength ∧
    (testManager3.Marshal 0 ()).1 = some [0, 0] := by
  have hgt : longStr.length > MaxStringLen := by
    unfold longStr
    rw [List.length_replicate]
    norm_num [MaxStringLen]
  have hq : ∀ p : Packer, p.PackStr longStr = { p with Err := some ErrBadLength } := by
    intro p
    unfold Packer.PackStr
    dsimp only
    rw [if_pos hgt]
  have hc : testManager3.codecs 0 = some uncheckedStrCodec := rfl
  have hpe : ((NewPacker testManager3.maxSize).PackShort 0).Err = none :=
    (PackShort_append (NewPacker testManager3.maxSize) 0 rfl rfl).2.2
  have hcond : ¬ (((NewPacker testManager3.maxSize).PackShort 0).Err.isSome = true) := by
    rw [hpe]
    simp
  have hM : testManager3.Marshal 0 () =
      (some (((NewPacker testManager3.maxSize).PackShort 0).Bytes.take
          ((NewPacker testManager3.maxSize).PackShort 0).Offset), some ErrBadLength) := by
    unfold manager.Marshal
    rw [hc]
    dsimp only
    rw [if_neg hcond]
    simp only [uncheckedStrCodec]
    rw [hq]
  constructor
  · rw [hM]
  · rw [hM]
    rfl

/-- C3, amended: whenever `Marshal` returns a non-nil error, the returned
byte slice is nil, provided the codec's `MarshalInto` never returns a nil
error while leaving the packer's sticky error set; a codec violating that
proviso makes `Marshal` return the packed prefix alongside the sticky
error (see the counterexample). -/
theorem C3_marshal_no_partial {V : Type} (m : manager V) (version : Nat) (source : V)
    (hwell : ∀ c, m.codecs version = some c → ∀ q,
      c.MarshalInto source ((NewPacker m.maxSize).PackShort version) = (none, q) →
      q.Err = none) :
    (m.Marshal version source).2 ≠ none → (m.Marshal version source).1 = none := by
  have hpe : ((NewPacker m.maxSize).PackShort version).Err = none :=
    (PackShort_append (NewPacker m.maxSize) version rfl rfl).2.2
  have hcond : ¬ (((NewPacker m.maxSize).PackShort version).Err.isSome = true) := by
    rw [hpe]
    simp
  intro herr
  rcases hc : m.codecs version with _ | c
  · unfold manager.Marshal
    rw [hc]
  · rcases hmar : c.MarshalInto source ((NewPacker m.maxSize).PackShort version)
      with ⟨oe, q⟩
    cases oe with
    | some e =>
      unfold manager.Marshal
      rw [hc]
      dsimp only
      rw [if_neg hcond, hmar]
    | none =>
      exfalso
      apply herr
      unfold manager.Marshal
      rw [hc]
      dsimp only
      rw [if_neg hcond, hmar]
      exact hwell c hc q hmar

/-- C3 witness: the amended theorem applied to the empty manager, where
the proviso is vacuous and Marshal fails with `ErrUnknownVersion` and nil
bytes. -/
theorem C3_marshal_no_partial_witness :
    (emptyManager.Marshal 5 ()).2 ≠ none ∧ (emptyManager.Marshal 5 ()).1 = none :=
  ⟨by decide, C3_marshal_no_partial emptyManager 5 () (fun c hc => nomatch hc) (by decide)⟩

/-! ## Claim C10: the Errs accumulator -/

theorem firstNonNil_append (l1 l2 : List (Option GoError)) :
    firstNonNil (l1 ++ l2) =
      match firstNonNil l1 with
      | some e => some e
      | none => firstNonNil l2 := by
  induction l1 with
  | nil => rfl
  | cons o t ih =>
    cases o with
    | some e => rfl
    | none => exact ih

theorem firstNonNil_eq_none (l : List (Option GoError)) (h : ∀ o ∈ l, o = none) :
    firstNonNil l = none := by
  induction l with
  | nil => rfl
  | cons o t ih =>
    have ho := h o (by simp)
    subst ho
    exact ih fun x hx => h x (by simp [hx])

theorem foldl_Add_some (calls : List (List (Option GoError))) (e : GoError) :
    calls.foldl Errs.Add ⟨some e⟩ = ⟨some e⟩ := by
  induction calls with
  | nil => rfl
  | cons c cs ih => exact ih

theorem foldl_Add_none (calls : List (List (Option GoError))) :
    (calls.foldl Errs.Add ⟨none⟩).Err = firstNonNil calls.flatten := by
  induction calls with
  | nil => rfl
  | cons c cs ih =>
    show (cs.foldl Errs.Add (Errs.Add ⟨none⟩ c)).Err = firstNonNil (c :: cs).flatten
    have hAdd : Errs.Add ⟨none⟩ c = ⟨firstNonNil c⟩ := rfl
    rw [hAdd, List.flatten_cons, firstNonNil_append]
    cases hfc : firstNonNil c with
    | some e => rw [foldl_Add_some]
    | none => exact ih

/-- C10: over any sequence of `Add` calls starting from a fresh `Errs`,
`Err` ends as the first non-nil error in call order then argument order;
once set it is never changed by a later `Add`; and if only nil errors are
supplied, `Err` stays nil and `Errored` is false. -/
theorem C10_errs_first (calls : List (List (Option GoError))) :
    (calls.foldl Errs.Add ⟨none⟩).Err = firstNonNil calls.flatten ∧
    (∀ (errs : Errs) (l : List (Option GoError)) (e : GoError),
      errs.Err = some e → (errs.Add l).Err = some e) ∧
    ((∀ o ∈ calls.flatten, o = none) →
      (calls.foldl Errs.Add ⟨none⟩).Err = none ∧
      (calls.foldl Errs.Add ⟨none⟩).Errored = false) := by
  refine ⟨foldl_Add_none calls, ?_, ?_⟩
  · intro errs l e he
    unfold Errs.Add
    simp [he]
  · intro hall
    refine ⟨by rw [foldl_Add_none, firstNonNil_eq_none _ hall], ?_⟩
    unfold Errs.Errored
    rw [foldl_Add_none, firstNonNil_eq_none _ hall]
    rfl

/-- C10 witness: the theorem applied at a concrete call sequence, the
first non-nil error winning, and at an `Errs` already holding an error. -/
theorem C10_errs_first_witness :
    (([[none, some ErrOverflow], [some ErrBadLength]] :
        List (List (Option GoError))).foldl Errs.Add ⟨none⟩).Err = some ErrOverflow ∧
    ((Errs.mk (some ErrBadLength)).Add [some ErrOverflow]).Err = some ErrBadLength := by
  constructor
  · rw [(C10_errs_first [[none, some ErrOverflow], [some ErrBadLength]]).1]
    rfl
  · exact (C10_errs_first []).2.1 ⟨some ErrBadLength⟩ [some ErrOverflow] ErrBadLength rfl

end LuxCodec
